import Mathlib

/-!
Verification development for the schema-composition core of
`swagger_marshmallow_codegen/schema/composed.py`.

Python dicts with string keys are modelled as association lists whose key
lists are duplicate-free at every reachable point (Python dicts cannot hold
a key twice); dict assignment `d[k] = v` keeps the position of an existing
key and appends a fresh key, which the recursive `updOne` below mirrors.
Schema instances (the external single-variant validators) are modelled as
`SchemaHandle` records carrying a stable class name, the field table and
opaque `load`/`dump` capabilities, exactly the interface `composed.py`
consumes.
-/

namespace Composed

/-- A payload value: the composition core only ever inspects string values
(discriminator lookup) and passes everything else through opaquely. -/
inductive Val : Type
| vstr (s : String)
| vnat (n : Nat)
deriving DecidableEq

/-- A Python dict from field names to values. -/
abbrev Dict := List (String × Val)

/-- A marshmallow error mapping: field name (or the sentinel key `_schema`)
to list of message strings. -/
abbrev Errors := List (String × List String)

/-- First-occurrence lookup, i.e. Python `d[k]` / `d.get(k)` on a dict. -/
def alookup {κ α : Type} [DecidableEq κ] : List (κ × α) → κ → Option α
| [], _ => none
| p :: rest, k => if p.1 = k then some p.2 else alookup rest k

/-- Python `k in d`. -/
def hasKey (d : Dict) (k : String) : Bool :=
(alookup d k).isSome

/-- Python dict assignment `d[k] = v`: replace in place if the key exists,
else append at the end. -/
def updOne {κ α : Type} [DecidableEq κ] : List (κ × α) → κ × α → List (κ × α)
| [], kv => [kv]
| p :: rest, kv => if p.1 = kv.1 then kv :: rest else p :: updOne rest kv

/-- Python `d.update(o)`: assign every pair of `o` into `d`, in order. -/
def updAll {κ α : Type} [DecidableEq κ] (d o : List (κ × α)) : List (κ × α) :=
o.foldl updOne d

/-- Python `d.pop(k)` (the key is present at every reachable call site). -/
def removeKey {κ α : Type} [DecidableEq κ] (d : List (κ × α)) (k : κ) :
    List (κ × α) :=
d.filter (fun p => p.1 ≠ k)

/-- First-defined choice on options (used to state later-keys-win merge
lookups). -/
def ofirst {α : Type} : Option α → Option α → Option α
| some v, _ => some v
| none, b => b

/-- A marshmallow field as seen by `signature_mapping`: only the
`required` flag is inspected. -/
structure Field : Type where
  required : Bool
deriving DecidableEq

/-- An instantiated variant schema: the opaque collaborator interface that
`composed.py` consumes (`__class__.__name__`, `fields`, `load`, `dump`). -/
structure SchemaHandle : Type where
  name : String
  fields : List (String × Field)
  load : Dict → Bool → Dict × Errors
  dump : Dict → Dict × Errors

/-- Insertion sort on strings, modelling Python `sorted`. -/
def insertSorted (x : String) : List String → List String
| [] => [x]
| y :: ys => if x ≤ y then x :: y :: ys else y :: insertSorted x ys

/-- `sorted(l)` for a list of strings. -/
def sortStrings (l : List String) : List String :=
l.foldr insertSorted []

/-- `tuple(sorted([name for name, f in s.fields.items() if f.required]))`. -/
def signatureOf (s : SchemaHandle) : List String :=
sortStrings ((s.fields.filter (fun p => p.2.required)).map (fun p => p.1))

/-- `SchemaFinder.signature_mapping`: an OrderedDict keyed by signature,
built by assignment in declared order (so a repeated signature keeps its
first position but ends up holding the last schema written to it). -/
def signature_mapping (schemas : List SchemaHandle) :
    List (List String × SchemaHandle) :=
schemas.foldl (fun d s => updOne d (signatureOf s, s)) []

/-- The two distinct `KeyError` sites of discriminator lookup in
`find_matched_schemas` / `find_schemas`, named after the design-level
error kinds they realise: the payload misses the discriminator field, or
the field's value is not a key of the discriminator mapping. -/
inductive FindError : Type
| missingDiscriminator (field : String)
| unknownDiscriminatorValue (v : Val)
deriving DecidableEq

/-- `SchemaFinder` state after `__init__`: the schemas and, when a
discriminator is configured, its field name and value-to-schema mapping. -/
structure SchemaFinder : Type where
  schemas : List SchemaHandle
  discriminator : Option (String × List (String × SchemaHandle))

/-- A discriminator specification as handed to `SchemaFinder.__init__`:
field name plus optional explicit value-to-variant mapping. -/
structure DiscriminatorSpec : Type where
  fieldname : String
  mapping : Option (List (String × SchemaHandle))

/-- `SchemaFinder.__init__`: with no explicit mapping the discriminator
value is matched against the variants' stable class names. -/
def mkSchemaFinder (schemas : List SchemaHandle)
    (disc : Option DiscriminatorSpec) : SchemaFinder :=
match disc with
| none => ⟨schemas, none⟩
| some d =>
  ⟨schemas,
   some (d.fieldname,
         match d.mapping with
         | none => schemas.map (fun s => (s.name, s))
         | some m => m)⟩

/-- Looking a payload value up in the discriminator mapping: mapping keys
are strings, so a non-string value never matches. -/
def discValueLookup (m : List (String × SchemaHandle)) : Val →
    Option SchemaHandle
| Val.vstr s => alookup m s
| _ => none

/-- `SchemaFinder.find_matched_schemas`: discriminator lookup when one is
configured, otherwise the structural required-field filter over
`signature_mapping`. -/
def find_matched_schemas (f : SchemaFinder) (data : Dict) :
    Except FindError (List SchemaHandle) :=
match f.discriminator with
| some (fieldname, mapping) =>
  match alookup data fieldname with
  | none => Except.error (FindError.missingDiscriminator fieldname)
  | some v =>
    match discValueLookup mapping v with
    | none => Except.error (FindError.unknownDiscriminatorValue v)
    | some s => Except.ok [s]
| none =>
  Except.ok
    (((signature_mapping f.schemas).filter
        (fun p => p.1.all (fun k => hasKey data k))).map (fun p => p.2))

/-- `SchemaFinder.find_schemas`: discriminator lookup when configured,
otherwise the full declared schema list, whatever the payload. -/
def find_schemas (f : SchemaFinder) (data : Dict) :
    Except FindError (List SchemaHandle) :=
match f.discriminator with
| some (fieldname, mapping) =>
  match alookup data fieldname with
  | none => Except.error (FindError.missingDiscriminator fieldname)
  | some v =>
    match discValueLookup mapping v with
    | none => Except.error (FindError.unknownDiscriminatorValue v)
    | some s => Except.ok [s]
| none => Except.ok f.schemas

/-- The single-quote character, used by Python `repr` of a string. -/
def pyQuote : String :=
String.singleton (Char.ofNat 39)

/-- Python `repr` of a plain string (single quotes). -/
def pyStrRepr (s : String) : String :=
pyQuote ++ s ++ pyQuote

/-- Python `str`/`format` of a list of strings, e.g. `[&A&, &B&]` with
single quotes in place of `&`. -/
def pyListRepr (l : List String) : String :=
"[" ++ String.intercalate ", " (l.map pyStrRepr) ++ "]"

/-- The per-composite context read by `OneOfSchema.final_check` from the
instance: the declared variants (`self.schemas`, with the `self` sentinel
already stripped) and the memoized `include_self` flag. -/
structure OneOfCtx : Type where
  schemas : List SchemaHandle
  include_self : Bool

/-- `OneOfSchema.final_check`: exactly-one success returns that value with
no errors; several successes merge the successful values (later keys win)
under a `satisfied both of ...` error naming the successful candidates;
zero successes merge all partial results (or return the payload when there
are none) under a `not matched, any of ...` error naming the declared
variants plus `self` when enabled. At every call site `schemas`, `results`
and `errors` are aligned lists of equal length. -/
def oneOf_final_check (ctx : OneOfCtx) (data : Dict)
    (schemas : List SchemaHandle) (results : List Dict)
    (errors : List Errors) (compacted : List Dict) : Dict × Errors :=
match compacted with
| [c] => (c, [])
| [] =>
  let merged := match results with
    | [] => data
    | r :: rest => rest.foldl updAll r
  let candidates :=
    ctx.schemas.map (fun s => s.name) ++
      (if ctx.include_self then ["self"] else [])
  (merged, [("_schema", ["not matched, any of " ++ pyListRepr candidates])])
| c :: rest =>
  let merged := rest.foldl updAll c
  let satisfied :=
    (schemas.zip errors).filterMap
      (fun p => if p.2 = ([] : Errors) then some p.1.name else none)
  (merged,
   [("_schema",
     ["satisfied both of " ++ pyListRepr satisfied ++ ", not only one"])])

/-- `AnyOfSchema.final_check`: at least one success merges the successful
values with no errors; zero successes fall back exactly like oneOf's
zero-match branch, with a `not matched, any of ...` error naming the
declared variants (`selfSchemas`, read from the instance). -/
def anyOf_final_check (selfSchemas : List SchemaHandle) (data : Dict)
    (_schemas : List SchemaHandle) (results : List Dict)
    (_errors : List Errors) (compacted : List Dict) : Dict × Errors :=
match compacted with
| c :: rest => (rest.foldl updAll c, [])
| [] =>
  let merged := match results with
    | [] => data
    | r :: rest => rest.foldl updAll r
  (merged,
   [("_schema",
     ["not matched, any of " ++
        pyListRepr (selfSchemas.map (fun s => s.name))])])

/-- Worker for `run_many`, carrying the running index of `enumerate`. -/
def runManyGo {α : Type} (fn : α → Dict × Errors) (i : Nat) :
    List α → List Dict × List (Nat × Errors)
| [] => ([], [])
| d :: rest =>
  let r := fn d
  let acc := runManyGo fn (i + 1) rest
  (r.1 :: acc.1, if r.2 = [] then acc.2 else (i, r.2) :: acc.2)

/-- `run_many`: apply `fn` to every item in input order, collecting every
per-item value and, keyed by item index, every non-empty per-item error
mapping. -/
def run_many {α : Type} (data : List α) (fn : α → Dict × Errors) :
    List Dict × List (Nat × Errors) :=
runManyGo fn 0 data

/-- The `compacted` list accumulated alongside `results`/`errors` in
`_marshall_one` / `_unmarshall_one`: the values of exactly the candidates
whose error mapping is empty, in candidate order. -/
def compactedOf (results : List Dict) (errors : List Errors) : List Dict :=
(results.zip errors).filterMap
  (fun p => if p.2 = ([] : Errors) then some p.1 else none)

/-- The shape of `self.final_check` as consumed by the marshaller and
unmarshaller: data, candidate schemas, results, errors, compacted. -/
abbrev FinalCheck :=
Dict → List SchemaHandle → List Dict → List Errors → List Dict →
  Dict × Errors

/-- `ComposedMarshaller._marshall_one`: ask the finder for the
structurally matched candidates, `dump` each one, and hand the aligned
result/error/compacted lists to `final_check`. -/
def marshall_one (final : FinalCheck) (f : SchemaFinder) (data : Dict) :
    Except FindError (Dict × Errors) :=
match find_matched_schemas f data with
| Except.error e => Except.error e
| Except.ok schemas =>
  let outs := schemas.map (fun s => s.dump data)
  let results := outs.map (fun o => o.1)
  let errors := outs.map (fun o => o.2)
  Except.ok (final data schemas results errors (compactedOf results errors))

/-- `ComposedUnmarshaller._unmarshall_one`: ask the finder via
`find_schemas` (so, with no discriminator, every declared variant), `load`
each candidate, and hand the aligned lists to `final_check`. -/
def unmarshall_one (final : FinalCheck) (f : SchemaFinder) (data : Dict)
    (pflag : Bool) : Except FindError (Dict × Errors) :=
match find_schemas f data with
| Except.error e => Except.error e
| Except.ok schemas =>
  let outs := schemas.map (fun s => s.load data pflag)
  let results := outs.map (fun o => o.1)
  let errors := outs.map (fun o => o.2)
  Except.ok (final data schemas results errors (compactedOf results errors))

/-- Python `msg.startswith("not matched, any of")`, as a character-list
comparison. -/
def startsNotMatched (msg : String) : Bool :=
List.isPrefixOf ("not matched, any of".data) msg.data

/-- `_merge_errors_one_for_include_self`: combine the aggregator's error
mapping with the base schema's own errors (`none` when the base schema
validated cleanly). -/
def merge_errors_one_for_include_self (errors : Errors)
    (self_errors : Option Errors) : Errors :=
match self_errors with
| some se =>
  if ((alookup errors "_schema").getD []).all startsNotMatched then
    errors
  else
    updAll errors se
| none =>
  if errors = [] then
    [("_schema", ["satisfied both of self and others, not only one"])]
  else if ((alookup errors "_schema").getD []).all startsNotMatched then
    removeKey errors "_schema"
  else
    errors

/-- Specification-side: the last declared schema with the given required
signature, if any (the value an OrderedDict keyed by signature ends up
holding). -/
def lastWithSig (sig : List String) : List SchemaHandle →
    Option SchemaHandle
| [] => none
| s :: rest =>
  ofirst (lastWithSig sig rest)
    (if signatureOf s = sig then some s else none)

/-- Specification-side: the distinct signatures of a schema list, in order
of first occurrence, skipping those already `seen`. -/
def sigKeys (seen : List (List String)) :
    List SchemaHandle → List (List String)
| [] => []
| s :: rest =>
  if signatureOf s ∈ seen then sigKeys seen rest
  else signatureOf s :: sigKeys (signatureOf s :: seen) rest

/-- Specification-side description of structural matching as the code
performs it: for each distinct signature in order of first declaration,
keep the last declared schema bearing it, and return the kept schemas
whose signature is a subset of the payload's keys. -/
def spec_matched (schemas : List SchemaHandle) (data : Dict) :
    List SchemaHandle :=
(sigKeys [] schemas).filterMap
  (fun sig =>
    if sig.all (fun k => hasKey data k) then lastWithSig sig schemas
    else none)

/-- Intermediate form of `signature_mapping` restricted to signatures not
yet seen: pairs each fresh signature, at its first occurrence, with the
last schema carrying it from that point on. -/
def sigFresh (seen : List (List String)) :
    List SchemaHandle → List (List String × SchemaHandle)
| [] => []
| s :: rest =>
  if signatureOf s ∈ seen then sigFresh seen rest
  else
    (signatureOf s, (lastWithSig (signatureOf s) rest).getD s) ::
      sigFresh (signatureOf s :: seen) rest

/-- Last-assignment lookup in one dict: the value of the last pair with
the given key, mirroring repeated Python dict assignment. -/
def lastLookup {κ α : Type} [DecidableEq κ] (d : List (κ × α)) (k : κ) :
    Option α :=
alookup d.reverse k

/-- Lookup across a list of dicts merged left to right, later dicts
winning. -/
def lookupIn {κ α : Type} [DecidableEq κ] :
    List (List (κ × α)) → κ → Option α
| [], _ => none
| d :: rest, k => ofirst (lookupIn rest k) (lastLookup d k)

instance {ε α : Type} [DecidableEq ε] [DecidableEq α] :
    DecidableEq (Except ε α)
| Except.ok a, Except.ok b =>
  if h : a = b then isTrue (by rw [h]) else isFalse (by simp [h])
| Except.error a, Except.error b =>
  if h : a = b then isTrue (by rw [h]) else isFalse (by simp [h])
| Except.ok _, Except.error _ => isFalse (by simp)
| Except.error _, Except.ok _ => isFalse (by simp)

/-- A trivial `load` capability used by the concrete example schemas. -/
def wLoad : Dict → Bool → Dict × Errors := fun d _ => (d, [])

/-- A trivial `dump` capability used by the concrete example schemas. -/
def wDump : Dict → Dict × Errors := fun d => (d, [])

/-- Example variant `A` with required field `x`. -/
def cexA : SchemaHandle := ⟨"A", [("x", ⟨true⟩)], wLoad, wDump⟩

/-- Example variant `B`, with the same required-field signature as `A`. -/
def cexB : SchemaHandle := ⟨"B", [("x", ⟨true⟩)], wLoad, wDump⟩

/-- A finder over `A` and `B` (identical signatures), no discriminator. -/
def cexF : SchemaFinder := ⟨[cexA, cexB], none⟩

/-- A payload carrying the shared required field `x`. -/
def cexD : Dict := [("x", Val.vnat 1)]

/-- Example variant `X` with required field `x`. -/
def wX : SchemaHandle := ⟨"X", [("x", ⟨true⟩)], wLoad, wDump⟩

/-- Example variant `Y` with required field `y`. -/
def wY : SchemaHandle := ⟨"Y", [("y", ⟨true⟩)], wLoad, wDump⟩

/-- A finder over `X` and `Y` (distinct signatures), no discriminator. -/
def wF : SchemaFinder := ⟨[wX, wY], none⟩

/-- A payload carrying only `x`. -/
def wDataX : Dict := [("x", Val.vnat 3)]

/-- Example variant `Cat` for the discriminator examples. -/
def wCat : SchemaHandle := ⟨"Cat", [("type", ⟨true⟩)], wLoad, wDump⟩

/-- Example variant `Dog` for the discriminator examples. -/
def wDog : SchemaHandle := ⟨"Dog", [("type", ⟨true⟩)], wLoad, wDump⟩

/-- A discriminator mapping from value strings to variants. -/
def wMapping : List (String × SchemaHandle) := [("Cat", wCat), ("Dog", wDog)]

/-- A finder discriminating on field `type`. -/
def wFD : SchemaFinder := ⟨[wCat, wDog], some ("type", wMapping)⟩

/-- A payload whose `type` field selects `Cat`. -/
def wDataCat : Dict := [("type", Val.vstr "Cat")]

/-- Aggregator errors consisting of exactly one `not matched` message. -/
def cexNM : Errors := [("_schema", ["not matched, any of " ++ pyListRepr ["A"]])]

/-- Base-schema errors distinct from `cexNM`. -/
def cexSE : Errors := [("x", ["required field"])]

/-- An ambiguity error, whose `_schema` message does not start with
`not matched, any of`. -/
def cexAmb : Errors :=
[("_schema",
  ["satisfied both of " ++ pyListRepr ["A", "B"] ++ ", not only one"])]

/-- A candidate result value. -/
def wDa : Dict := [("a", Val.vnat 1)]

/-- Another candidate result value. -/
def wDb : Dict := [("b", Val.vnat 2)]

end Composed

namespace Composed

lemma ofirst_assoc {α : Type} (a b c : Option α) :
    ofirst (ofirst a b) c = ofirst a (ofirst b c) := by
  cases a <;> cases b <;> rfl

lemma ofirst_none_left {α : Type} (b : Option α) : ofirst none b = b := rfl

lemma alookup_single {κ α : Type} [DecidableEq κ] (p : κ × α) (k : κ) :
    alookup [p] k = if k = p.1 then some p.2 else none := by
  by_cases hp : p.1 = k
  · rw [alookup, if_pos hp, if_pos hp.symm]
  · rw [alookup, if_neg hp, if_neg (fun hh => hp hh.symm)]
    rfl

lemma alookup_updOne {κ α : Type} [DecidableEq κ]
    (d : List (κ × α)) (kv : κ × α) (k : κ) :
    alookup (updOne d kv) k =
      if k = kv.1 then some kv.2 else alookup d k := by
  induction d with
  | nil => exact alookup_single kv k
  | cons p rest ih =>
    simp only [updOne]
    by_cases hp : p.1 = kv.1
    · rw [if_pos hp]
      by_cases hk : k = kv.1
      · simp [alookup, hk]
      · have hpk : ¬ p.1 = k := by rw [hp]; exact Ne.symm hk
        simp [alookup, hk, Ne.symm hk, hpk]
    · rw [if_neg hp]
      by_cases hk : p.1 = k
      · have hkkv : ¬ k = kv.1 := fun hh => hp (hk.trans hh)
        simp [alookup, hk, hkkv]
      · simp [alookup, hk, ih]

lemma alookup_append {κ α : Type} [DecidableEq κ]
    (l1 l2 : List (κ × α)) (k : κ) :
    alookup (l1 ++ l2) k = ofirst (alookup l1 k) (alookup l2 k) := by
  induction l1 with
  | nil => rfl
  | cons p rest ih =>
    by_cases hp : p.1 = k
    · simp [alookup, hp, ofirst]
    · simp [alookup, hp, ih]

lemma lastLookup_cons {κ α : Type} [DecidableEq κ]
    (p : κ × α) (o : List (κ × α)) (k : κ) :
    lastLookup (p :: o) k =
      ofirst (lastLookup o k) (if k = p.1 then some p.2 else none) := by
  rw [lastLookup, List.reverse_cons, alookup_append, alookup_single]
  rfl

lemma alookup_updAll {κ α : Type} [DecidableEq κ]
    (o : List (κ × α)) : ∀ (d : List (κ × α)) (k : κ),
    alookup (updAll d o) k = ofirst (lastLookup o k) (alookup d k) := by
  induction o with
  | nil => intro d k; rfl
  | cons p o' ih =>
    intro d k
    have step : updAll d (p :: o') = updAll (updOne d p) o' := rfl
    rw [step, ih, alookup_updOne, lastLookup_cons, ofirst_assoc]
    by_cases hk : k = p.1 <;> simp [hk, ofirst]

lemma foldl_updAll_lookup {κ α : Type} [DecidableEq κ]
    (l : List (List (κ × α))) : ∀ (d : List (κ × α)) (k : κ),
    alookup (l.foldl updAll d) k = ofirst (lookupIn l k) (alookup d k) := by
  induction l with
  | nil => intro d k; rfl
  | cons o l' ih =>
    intro d k
    have step : (o :: l').foldl updAll d = l'.foldl updAll (updAll d o) := rfl
    rw [step, ih, alookup_updAll, ← ofirst_assoc]
    rfl

lemma compactedOf_nil (results : List Dict) (errors : List Errors)
    (hall : ∀ e ∈ errors, e ≠ ([] : Errors)) :
    compactedOf results errors = [] := by
  rw [compactedOf, List.filterMap_eq_nil_iff]
  intro p hp
  exact if_neg (hall p.2 (List.of_mem_zip hp).2)

lemma compactedOf_single (r1 r2 : List Dict) (e1 e2 : List Errors) (v : Dict)
    (h1 : r1.length = e1.length)
    (he1 : ∀ e ∈ e1, e ≠ ([] : Errors))
    (he2 : ∀ e ∈ e2, e ≠ ([] : Errors)) :
    compactedOf (r1 ++ v :: r2) (e1 ++ ([] : Errors) :: e2) = [v] := by
  rw [compactedOf, List.zip_append h1, List.filterMap_append,
    List.zip_cons_cons, List.filterMap_cons]
  have hz1 :
      List.filterMap
        (fun p : Dict × Errors =>
          if p.2 = ([] : Errors) then some p.1 else none) (r1.zip e1) = [] := by
    rw [List.filterMap_eq_nil_iff]
    intro p hp
    exact if_neg (he1 p.2 (List.of_mem_zip hp).2)
  have hz2 :
      List.filterMap
        (fun p : Dict × Errors =>
          if p.2 = ([] : Errors) then some p.1 else none) (r2.zip e2) = [] := by
    rw [List.filterMap_eq_nil_iff]
    intro p hp
    exact if_neg (he2 p.2 (List.of_mem_zip hp).2)
  simp [hz1, hz2]

lemma lastWithSig_cons_self (s : SchemaHandle) (sig : List String)
    (rest : List SchemaHandle) (h : signatureOf s = sig) :
    lastWithSig sig (s :: rest) = some ((lastWithSig sig rest).getD s) := by
  rw [lastWithSig, if_pos h]
  cases lastWithSig sig rest <;> rfl

lemma lastWithSig_cons_ne (s : SchemaHandle) (sig : List String)
    (rest : List SchemaHandle) (h : ¬ signatureOf s = sig) :
    lastWithSig sig (s :: rest) = lastWithSig sig rest := by
  rw [lastWithSig, if_neg h]
  cases lastWithSig sig rest <;> rfl

lemma lastWithSig_mem (sig : List String) :
    ∀ (l : List SchemaHandle) (s : SchemaHandle),
    lastWithSig sig l = some s → s ∈ l ∧ signatureOf s = sig := by
  intro l
  induction l with
  | nil => intro s h; cases h
  | cons t rest ih =>
    intro s h
    rw [lastWithSig] at h
    cases hr : lastWithSig sig rest with
    | some u =>
      rw [hr] at h
      cases h
      exact ⟨List.mem_cons_of_mem t (ih s hr).1, (ih s hr).2⟩
    | none =>
      rw [hr] at h
      by_cases ht : signatureOf t = sig
      · rw [if_pos ht] at h
        cases h
        exact ⟨List.mem_cons_self t rest, ht⟩
      · rw [if_neg ht] at h
        cases h

lemma updOne_keys_mem {κ α : Type} [DecidableEq κ] (k : κ) (v : α) :
    ∀ (d : List (κ × α)), k ∈ d.map Prod.fst →
    (updOne d (k, v)).map Prod.fst = d.map Prod.fst := by
  intro d
  induction d with
  | nil => intro h; cases h
  | cons p rest ih =>
    intro h
    rw [updOne]
    by_cases hp : p.1 = k
    · rw [if_pos hp]
      simp [hp]
    · rw [if_neg hp]
      have hk : k ∈ rest.map Prod.fst := by
        rcases List.mem_cons.mp h with hh | hh
        · exact absurd hh.symm hp
        · exact hh
      simp [ih hk]

lemma updOne_not_mem_append {κ α : Type} [DecidableEq κ] (k : κ) (v : α) :
    ∀ (d : List (κ × α)), k ∉ d.map Prod.fst →
    updOne d (k, v) = d ++ [(k, v)] := by
  intro d
  induction d with
  | nil => intro _; rfl
  | cons p rest ih =>
    intro h
    rw [updOne]
    have hp : ¬ p.1 = k := by
      intro hh
      exact h (by simp [hh])
    rw [if_neg hp, ih (fun hh => h (by simp [hh]))]
    rfl

lemma sigFresh_congr (l : List SchemaHandle) :
    ∀ (s1 s2 : List (List String)), (∀ x, x ∈ s1 ↔ x ∈ s2) →
    sigFresh s1 l = sigFresh s2 l := by
  induction l with
  | nil => intro _ _ _; rfl
  | cons s rest ih =>
    intro s1 s2 hiff
    rw [sigFresh, sigFresh]
    by_cases h1 : signatureOf s ∈ s1
    · rw [if_pos h1, if_pos ((hiff _).mp h1)]
      exact ih s1 s2 hiff
    · rw [if_neg h1, if_neg (fun hh => h1 ((hiff _).mpr hh))]
      have : ∀ x, x ∈ signatureOf s :: s1 ↔ x ∈ signatureOf s :: s2 := by
        intro x
        simp [hiff x]
      rw [ih _ _ this]

lemma map_overlay_updOne (s : SchemaHandle) (rest : List SchemaHandle) :
    ∀ (d : List (List String × SchemaHandle)),
    (d.map Prod.fst).Nodup → signatureOf s ∈ d.map Prod.fst →
    (updOne d (signatureOf s, s)).map
        (fun p => (p.1, (lastWithSig p.1 rest).getD p.2))
      = d.map (fun p => (p.1, (lastWithSig p.1 (s :: rest)).getD p.2)) := by
  intro d
  induction d with
  | nil => intro _ h; cases h
  | cons p d' ih =>
    intro hnd hmem
    rw [updOne]
    by_cases hp : p.1 = signatureOf s
    · rw [if_pos hp]
      rw [List.map_cons, List.map_cons]
      have hhead :
          ((signatureOf s : List String),
            (lastWithSig (signatureOf s) rest).getD s)
            = (p.1, (lastWithSig p.1 (s :: rest)).getD p.2) := by
        rw [hp, lastWithSig_cons_self s (signatureOf s) rest rfl]
        rfl
      rw [hhead]
      have htail :
          d'.map (fun q => (q.1, (lastWithSig q.1 rest).getD q.2))
            = d'.map (fun q => (q.1, (lastWithSig q.1 (s :: rest)).getD q.2)) := by
        apply List.map_congr_left
        intro q hq
        have hq1 : q.1 ≠ signatureOf s := by
          intro hh
          have hpnin : p.1 ∉ d'.map Prod.fst :=
            (List.nodup_cons.mp hnd).1
          exact hpnin (by
            rw [hp, ← hh]
            exact List.mem_map_of_mem Prod.fst hq)
        rw [lastWithSig_cons_ne s q.1 rest (fun hh => hq1 hh.symm)]
      rw [htail]
    · rw [if_neg hp]
      rw [List.map_cons, List.map_cons]
      have hhead :
          ((p.1 : List String), (lastWithSig p.1 rest).getD p.2)
            = (p.1, (lastWithSig p.1 (s :: rest)).getD p.2) := by
        rw [lastWithSig_cons_ne s p.1 rest (fun hh => hp hh.symm)]
      rw [hhead]
      have hmem' : signatureOf s ∈ d'.map Prod.fst := by
        rcases List.mem_cons.mp hmem with hh | hh
        · exact absurd hh.symm hp
        · exact hh
      rw [ih (List.nodup_cons.mp hnd).2 hmem']

lemma lastWithSig_isSome (sig : List String) :
    ∀ (l : List SchemaHandle) (t : SchemaHandle),
    t ∈ l → signatureOf t = sig → (lastWithSig sig l).isSome := by
  intro l
  induction l with
  | nil => intro t ht _; cases ht
  | cons u rest ih =>
    intro t ht hsig
    rw [lastWithSig]
    rcases List.mem_cons.mp ht with hh | hh
    · cases lastWithSig sig rest with
      | some w => simp [ofirst]
      | none => subst hh; simp [ofirst, hsig]
    · cases hv : lastWithSig sig rest with
      | some w => simp [ofirst]
      | none =>
        have := ih t hh hsig
        rw [hv] at this
        cases this

lemma foldl_sigmap : ∀ (l : List SchemaHandle)
    (d : List (List String × SchemaHandle)), (d.map Prod.fst).Nodup →
    l.foldl (fun acc s => updOne acc (signatureOf s, s)) d
      = d.map (fun p => (p.1, (lastWithSig p.1 l).getD p.2)) ++
          sigFresh (d.map Prod.fst) l := by
  intro l
  induction l with
  | nil =>
    intro d _
    rw [show sigFresh (d.map Prod.fst) [] = [] from rfl, List.append_nil]
    have hmap : ∀ (e : List (List String × SchemaHandle)),
        e.map (fun p =>
          (p.1, (lastWithSig p.1 ([] : List SchemaHandle)).getD p.2)) = e := by
      intro e
      induction e with
      | nil => rfl
      | cons p tail ihe =>
        rw [List.map_cons, ihe]
        rfl
    exact (hmap d).symm
  | cons s rest ih =>
    intro d hnd
    have step :
        (s :: rest).foldl (fun acc t => updOne acc (signatureOf t, t)) d
          = rest.foldl (fun acc t => updOne acc (signatureOf t, t))
              (updOne d (signatureOf s, s)) := rfl
    rw [step]
    by_cases hmem : signatureOf s ∈ d.map Prod.fst
    · have hkeys := updOne_keys_mem (signatureOf s) s d hmem
      have hnd' : ((updOne d (signatureOf s, s)).map Prod.fst).Nodup := by
        rw [hkeys]; exact hnd
      rw [ih _ hnd', hkeys, map_overlay_updOne s rest d hnd hmem]
      rw [sigFresh, if_pos hmem]
    · have happ := updOne_not_mem_append (signatureOf s) s d hmem
      have hkeys : (updOne d (signatureOf s, s)).map Prod.fst
          = d.map Prod.fst ++ [signatureOf s] := by
        rw [happ, List.map_append]
        rfl
      have hnd' : ((updOne d (signatureOf s, s)).map Prod.fst).Nodup := by
        rw [hkeys]
        simp [List.nodup_append, hnd, hmem]
      rw [ih _ hnd', hkeys, happ, List.map_append]
      have hmapd :
          d.map (fun p => (p.1, (lastWithSig p.1 rest).getD p.2))
            = d.map (fun p => (p.1, (lastWithSig p.1 (s :: rest)).getD p.2)) := by
        apply List.map_congr_left
        intro q hq
        have hq1 : ¬ signatureOf s = q.1 := by
          intro hh
          exact hmem (by rw [hh]; exact List.mem_map_of_mem Prod.fst hq)
        rw [lastWithSig_cons_ne s q.1 rest hq1]
      have hfr : sigFresh (d.map Prod.fst ++ [signatureOf s]) rest
          = sigFresh (signatureOf s :: d.map Prod.fst) rest := by
        apply sigFresh_congr
        intro x
        rw [List.mem_append, List.mem_singleton, List.mem_cons]
        exact or_comm
      have hsingle :
          ([((signatureOf s : List String), s)].map
            (fun p => (p.1, (lastWithSig p.1 rest).getD p.2)))
            = [(signatureOf s, (lastWithSig (signatureOf s) rest).getD s)] := rfl
      rw [hmapd, hfr, hsingle]
      rw [sigFresh, if_neg hmem]
      rw [List.append_assoc]
      rfl

lemma signature_mapping_eq_sigFresh (schemas : List SchemaHandle) :
    signature_mapping schemas = sigFresh [] schemas := by
  have h := foldl_sigmap schemas [] (by simp)
  simpa [signature_mapping] using h

lemma mem_sigKeys_not_seen : ∀ (l : List SchemaHandle)
    (seen : List (List String)) (sig : List String),
    sig ∈ sigKeys seen l → sig ∉ seen := by
  intro l
  induction l with
  | nil => intro seen sig h; cases h
  | cons s rest ih =>
    intro seen sig h
    rw [sigKeys] at h
    by_cases hs : signatureOf s ∈ seen
    · rw [if_pos hs] at h
      exact ih seen sig h
    · rw [if_neg hs] at h
      rcases List.mem_cons.mp h with hh | hh
      · rw [hh]; exact hs
      · intro hin
        exact ih _ sig hh (List.mem_cons_of_mem _ hin)

lemma mem_sigKeys : ∀ (l : List SchemaHandle)
    (seen : List (List String)) (sig : List String),
    sig ∈ sigKeys seen l ↔
      (sig ∉ seen ∧ ∃ t, t ∈ l ∧ signatureOf t = sig) := by
  intro l
  induction l with
  | nil =>
    intro seen sig
    simp [sigKeys]
  | cons s rest ih =>
    intro seen sig
    rw [sigKeys]
    by_cases hs : signatureOf s ∈ seen
    · rw [if_pos hs, ih]
      constructor
      · rintro ⟨hn, t, ht, hsig⟩
        exact ⟨hn, t, List.mem_cons_of_mem _ ht, hsig⟩
      · rintro ⟨hn, t, ht, hsig⟩
        refine ⟨hn, ?_⟩
        rcases List.mem_cons.mp ht with hh | hh
        · exfalso
          apply hn
          rw [← hsig, hh]
          exact hs
        · exact ⟨t, hh, hsig⟩
    · rw [if_neg hs]
      constructor
      · intro h
        rcases List.mem_cons.mp h with hh | hh
        · exact ⟨hh ▸ hs, s, List.mem_cons_self s rest, hh.symm⟩
        · rcases (ih _ sig).mp hh with ⟨hn, t, ht, hsig⟩
          have hn' : sig ∉ seen := fun hin => hn (List.mem_cons_of_mem _ hin)
          exact ⟨hn', t, List.mem_cons_of_mem _ ht, hsig⟩
      · rintro ⟨hn, t, ht, hsig⟩
        by_cases hsig_s : sig = signatureOf s
        · rw [hsig_s]
          exact List.mem_cons_self _ _
        · apply List.mem_cons_of_mem
          rcases List.mem_cons.mp ht with hh | hh
          · exfalso
            apply hsig_s
            rw [← hsig, hh]
          · refine (ih _ sig).mpr ⟨?_, t, hh, hsig⟩
            intro hin
            rcases List.mem_cons.mp hin with hx | hx
            · exact hsig_s hx
            · exact hn hx

lemma sigFresh_filter_map (data : Dict) : ∀ (l : List SchemaHandle)
    (seen : List (List String)),
    ((sigFresh seen l).filter
        (fun p => p.1.all (fun k => hasKey data k))).map (fun p => p.2)
      = (sigKeys seen l).filterMap
          (fun sig =>
            if sig.all (fun k => hasKey data k) then lastWithSig sig l
            else none) := by
  intro l
  induction l with
  | nil => intro seen; rfl
  | cons s rest ih =>
    intro seen
    have hcongr : ∀ (seen' : List (List String)),
        (∀ sig', sig' ∈ sigKeys seen' rest → ¬ signatureOf s = sig') →
        (sigKeys seen' rest).filterMap
            (fun sig =>
              if sig.all (fun k => hasKey data k) then lastWithSig sig rest
              else none)
          = (sigKeys seen' rest).filterMap
              (fun sig =>
                if sig.all (fun k => hasKey data k) then
                  lastWithSig sig (s :: rest)
                else none) := by
      intro seen' hne
      apply List.filterMap_congr
      intro sig' hsig'
      by_cases htest : sig'.all (fun k => hasKey data k)
      · rw [if_pos htest, if_pos htest,
          lastWithSig_cons_ne s sig' rest (hne sig' hsig')]
      · rw [if_neg htest, if_neg htest]
    rw [sigFresh, sigKeys]
    by_cases hs : signatureOf s ∈ seen
    · rw [if_pos hs, if_pos hs, ih]
      apply hcongr
      intro sig' hsig' hh
      exact mem_sigKeys_not_seen rest seen sig' hsig' (hh ▸ hs)
    · rw [if_neg hs, if_neg hs]
      have hc := hcongr (signatureOf s :: seen)
        (fun sig' hsig' hh =>
          mem_sigKeys_not_seen rest _ sig' hsig'
            (hh ▸ List.mem_cons_self _ _))
      by_cases htest : (signatureOf s).all (fun k => hasKey data k)
      · have hfilter := @List.filter_cons_of_pos (List String × SchemaHandle)
          (fun p => p.1.all fun k => hasKey data k)
          (signatureOf s, (lastWithSig (signatureOf s) rest).getD s)
          (sigFresh (signatureOf s :: seen) rest) htest
        have hfm := @List.filterMap_cons_some (List String) SchemaHandle
          (fun sig =>
            if sig.all (fun k => hasKey data k) then lastWithSig sig (s :: rest)
            else none)
          (signatureOf s) (sigKeys (signatureOf s :: seen) rest)
          ((lastWithSig (signatureOf s) rest).getD s)
          (by
            show (if (signatureOf s).all (fun k => hasKey data k) then
                lastWithSig (signatureOf s) (s :: rest)
              else none) = some ((lastWithSig (signatureOf s) rest).getD s)
            rw [if_pos htest, lastWithSig_cons_self s (signatureOf s) rest rfl])
        rw [hfilter, hfm, List.map_cons, ih, hc]
      · have hfilter := @List.filter_cons_of_neg (List String × SchemaHandle)
          (fun p => p.1.all fun k => hasKey data k)
          (signatureOf s, (lastWithSig (signatureOf s) rest).getD s)
          (sigFresh (signatureOf s :: seen) rest) htest
        have hfm := @List.filterMap_cons_none (List String) SchemaHandle
          (fun sig =>
            if sig.all (fun k => hasKey data k) then lastWithSig sig (s :: rest)
            else none)
          (signatureOf s) (sigKeys (signatureOf s :: seen) rest)
          (by
            show (if (signatureOf s).all (fun k => hasKey data k) then
                lastWithSig (signatureOf s) (s :: rest)
              else none) = none
            rw [if_neg htest])
        rw [hfilter, hfm, ih, hc]

lemma find_matched_eq_spec (f : SchemaFinder) (data : Dict)
    (h : f.discriminator = none) :
    find_matched_schemas f data
      = Except.ok (spec_matched f.schemas data) := by
  simp only [find_matched_schemas, h]
  rw [signature_mapping_eq_sigFresh, sigFresh_filter_map data f.schemas []]
  rfl

lemma mem_spec_matched (L : List SchemaHandle) (data : Dict)
    (s : SchemaHandle) :
    s ∈ spec_matched L data ↔
      (lastWithSig (signatureOf s) L = some s ∧
        (signatureOf s).all (fun k => hasKey data k) = true) := by
  rw [spec_matched]
  constructor
  · intro h
    rcases List.mem_filterMap.mp h with ⟨sig, _hsig, hval⟩
    by_cases htest : sig.all (fun k => hasKey data k)
    · rw [if_pos htest] at hval
      have hm := lastWithSig_mem sig L s hval
      rw [← hm.2] at hval htest
      exact ⟨hval, htest⟩
    · rw [if_neg htest] at hval
      cases hval
  · rintro ⟨hlast, htest⟩
    apply List.mem_filterMap.mpr
    refine ⟨signatureOf s, ?_, ?_⟩
    · apply (mem_sigKeys L [] (signatureOf s)).mpr
      refine ⟨by simp, s, (lastWithSig_mem _ L s hlast).1, rfl⟩
    · rw [if_pos htest, hlast]

lemma runManyGo_spec {α : Type} (fn : α → Dict × Errors) :
    ∀ (l : List α) (i : Nat),
    runManyGo fn i l =
      (l.map (fun d => (fn d).1),
       (List.enumFrom i l).filterMap
         (fun p => if (fn p.2).2 = ([] : Errors) then none
           else some (p.1, (fn p.2).2))) := by
  intro l
  induction l with
  | nil => intro i; rfl
  | cons d rest ih =>
    intro i
    have hstep : runManyGo fn i (d :: rest)
        = ((fn d).1 :: (runManyGo fn (i + 1) rest).1,
           if (fn d).2 = ([] : Errors) then (runManyGo fn (i + 1) rest).2
           else (i, (fn d).2) :: (runManyGo fn (i + 1) rest).2) := rfl
    rw [hstep, ih (i + 1), List.map_cons, List.enumFrom_cons]
    by_cases hz : (fn d).2 = ([] : Errors)
    · rw [if_pos hz,
        List.filterMap_cons_none
          (by
            show (if (fn d).2 = ([] : Errors) then none
              else some (i, (fn d).2)) = none
            rw [if_pos hz])]
    · rw [if_neg hz,
        List.filterMap_cons_some
          (by
            show (if (fn d).2 = ([] : Errors) then none
              else some (i, (fn d).2)) = some (i, (fn d).2)
            rw [if_neg hz])]

/-- C9: batch processing via `run_many` handles each item independently in
input order with no short-circuit: the result list has exactly one entry
per input item (the item's own value, in input order), and the error
mapping holds exactly the indices whose item produced a non-empty error
mapping, keyed to that error mapping. -/
theorem C9_run_many_batch {α : Type} (data : List α)
    (fn : α → Dict × Errors) :
    (run_many data fn).1 = data.map (fun d => (fn d).1) ∧
    (run_many data fn).1.length = data.length ∧
    (run_many data fn).2 = data.enum.filterMap
      (fun p => if (fn p.2).2 = ([] : Errors) then none
        else some (p.1, (fn p.2).2)) := by
  have h := runManyGo_spec fn data 0
  refine ⟨?_, ?_, ?_⟩
  · rw [show (run_many data fn).1 = (runManyGo fn 0 data).1 from rfl, h]
  · rw [show (run_many data fn).1 = (runManyGo fn 0 data).1 from rfl, h]
    exact List.length_map data (fun d => (fn d).1)
  · rw [show (run_many data fn).2 = (runManyGo fn 0 data).2 from rfl, h,
      List.enum_eq_enumFrom]

/-- C1 (amended): with no discriminator, `find_matched_schemas` returns,
for each distinct required-field signature in order of first declaration,
the *last* declared variant bearing that signature, filtered to the
signatures that are subsets of the payload's keys (`spec_matched`); so a
variant is returned exactly when its required fields are all payload keys
and no later variant shares its signature, and a kept variant with no
required fields matches every payload. -/
theorem C1_structural_match_set (f : SchemaFinder) (data : Dict)
    (h : f.discriminator = none) :
    find_matched_schemas f data
        = Except.ok (spec_matched f.schemas data) ∧
    (∀ s : SchemaHandle, s ∈ spec_matched f.schemas data ↔
      (lastWithSig (signatureOf s) f.schemas = some s ∧
        (signatureOf s).all (fun k => hasKey data k) = true)) ∧
    (∀ s : SchemaHandle, lastWithSig (signatureOf s) f.schemas = some s →
      signatureOf s = [] → s ∈ spec_matched f.schemas data) := by
  refine ⟨find_matched_eq_spec f data h,
    fun s => mem_spec_matched f.schemas data s, ?_⟩
  intro s hlast hsig
  apply (mem_spec_matched f.schemas data s).mpr
  refine ⟨hlast, ?_⟩
  rw [hsig]
  rfl

/-- Witness for C1 at a concrete finder and payload. -/
theorem C1_structural_match_set_witness :
    find_matched_schemas wF wDataX
      = Except.ok (spec_matched wF.schemas wDataX) :=
(C1_structural_match_set wF wDataX rfl).1

/-- Counterexample to C1 as stated: variants `A` and `B` share the
required-field signature `x` and the payload has key `x`, yet only `B` is
returned — the claim demands both. -/
theorem C1_counterexample :
    (find_matched_schemas cexF cexD).map (fun l => l.map (fun s => s.name))
        = Except.ok ["B"] ∧
    cexA ∈ cexF.schemas ∧
    signatureOf cexA = ["x"] ∧
    (signatureOf cexA).all (fun k => hasKey cexD k) = true ∧
    (find_matched_schemas cexF cexD).map (fun l => l.map (fun s => s.name))
        ≠ Except.ok ["A", "B"] := by
  refine ⟨rfl, List.mem_cons_self _ _, rfl, rfl, ?_⟩
  decide

/-- C2 (amended): when the base schema's own validation failed
(`self_errors` present), the merge rule *keeps the aggregator's errors
unchanged* (discarding `self_errors`) whenever every `_schema` message —
vacuously, also when there is none — starts with `not matched, any of`;
otherwise it merges `self_errors` into the aggregator's error mapping,
later keys winning. -/
theorem C2_self_errors_rule (errors se : Errors) :
    (((alookup errors "_schema").getD []).all startsNotMatched = true →
      merge_errors_one_for_include_self errors (some se) = errors) ∧
    (((alookup errors "_schema").getD []).all startsNotMatched = false →
      merge_errors_one_for_include_self errors (some se) = updAll errors se ∧
      (∀ k, alookup (merge_errors_one_for_include_self errors (some se)) k
          = ofirst (lastLookup se k) (alookup errors k))) := by
  constructor
  · intro h
    show (if ((alookup errors "_schema").getD []).all startsNotMatched then
        errors else updAll errors se) = errors
    rw [if_pos h]
  · intro h
    have hne : ¬ ((alookup errors "_schema").getD []).all startsNotMatched
        = true := by
      rw [h]
      exact Bool.false_ne_true
    have heq : merge_errors_one_for_include_self errors (some se)
        = updAll errors se := by
      show (if ((alookup errors "_schema").getD []).all startsNotMatched then
          errors else updAll errors se) = updAll errors se
      rw [if_neg hne]
    refine ⟨heq, ?_⟩
    intro k
    rw [heq, alookup_updAll]

/-- Witness for C2 at concrete error mappings (merge branch). -/
theorem C2_self_errors_rule_witness :
    merge_errors_one_for_include_self cexAmb (some cexSE)
      = updAll cexAmb cexSE :=
((C2_self_errors_rule cexAmb cexSE).2 (by decide)).1

/-- Counterexample to C2 as stated: the aggregator's errors are exactly
one `not matched` message and `self_errors` is non-empty, yet the result
is the aggregator's errors unchanged, not `self_errors`. -/
theorem C2_counterexample :
    ((alookup cexNM "_schema").getD []).all startsNotMatched = true ∧
    cexSE ≠ [] ∧
    merge_errors_one_for_include_self cexNM (some cexSE) = cexNM ∧
    merge_errors_one_for_include_self cexNM (some cexSE) ≠ cexSE := by
  decide

/-- C3: with a discriminator configured, candidate lookup returns exactly
one candidate when the field is present and its value maps to a variant;
it fails with the missing-discriminator error when the field is absent,
and with the unknown-value error when the value maps to no variant — and
every successful lookup has exactly one candidate. -/
theorem C3_discriminator_candidates (f : SchemaFinder) (fieldname : String)
    (mapping : List (String × SchemaHandle)) (data : Dict)
    (h : f.discriminator = some (fieldname, mapping)) :
    (alookup data fieldname = none →
      find_matched_schemas f data
          = Except.error (FindError.missingDiscriminator fieldname) ∧
      find_schemas f data
          = Except.error (FindError.missingDiscriminator fieldname)) ∧
    (∀ v, alookup data fieldname = some v →
      discValueLookup mapping v = none →
      find_matched_schemas f data
          = Except.error (FindError.unknownDiscriminatorValue v) ∧
      find_schemas f data
          = Except.error (FindError.unknownDiscriminatorValue v)) ∧
    (∀ v s, alookup data fieldname = some v →
      discValueLookup mapping v = some s →
      find_matched_schemas f data = Except.ok [s] ∧
      find_schemas f data = Except.ok [s]) ∧
    (∀ l, find_matched_schemas f data = Except.ok l → l.length = 1) := by
  have hA : alookup data fieldname = none →
      find_matched_schemas f data
          = Except.error (FindError.missingDiscriminator fieldname) ∧
      find_schemas f data
          = Except.error (FindError.missingDiscriminator fieldname) := by
    intro hnone
    constructor <;> simp only [find_matched_schemas, find_schemas, h, hnone]
  have hB : ∀ v, alookup data fieldname = some v →
      discValueLookup mapping v = none →
      find_matched_schemas f data
          = Except.error (FindError.unknownDiscriminatorValue v) ∧
      find_schemas f data
          = Except.error (FindError.unknownDiscriminatorValue v) := by
    intro v hv hm
    constructor <;>
      simp only [find_matched_schemas, find_schemas, h, hv, hm]
  have hC : ∀ v s, alookup data fieldname = some v →
      discValueLookup mapping v = some s →
      find_matched_schemas f data = Except.ok [s] ∧
      find_schemas f data = Except.ok [s] := by
    intro v s hv hm
    constructor <;>
      simp only [find_matched_schemas, find_schemas, h, hv, hm]
  refine ⟨hA, hB, hC, ?_⟩
  intro l hl
  rcases halook : alookup data fieldname with _ | v
  · rw [(hA halook).1] at hl
    exact absurd hl (by simp)
  · rcases hm : discValueLookup mapping v with _ | s
    · rw [(hB v halook hm).1] at hl
      exact absurd hl (by simp)
    · rw [(hC v s halook hm).1] at hl
      rw [← Except.ok.inj hl]
      rfl

/-- Witness for C3 at a concrete discriminating finder and payload. -/
theorem C3_discriminator_candidates_witness :
    find_matched_schemas wFD wDataCat = Except.ok [wCat] ∧
    find_schemas wFD wDataCat = Except.ok [wCat] :=
(C3_discriminator_candidates wFD "type" wMapping wDataCat rfl).2.2.1
  (Val.vstr "Cat") wCat rfl rfl

/-- C4: when two or more candidates succeed, oneOf `final_check` returns
the first successful value updated in order by each later successful value
(later keys winning, as the lookup conjunct states), with a single
`_schema` message `satisfied both of {names}, not only one` naming
exactly the candidates whose error set was empty, in candidate order. -/
theorem C4_oneof_ambiguous (ctx : OneOfCtx) (data : Dict)
    (schemas : List SchemaHandle) (results : List Dict)
    (errors : List Errors) (c0 : Dict) (crest : List Dict)
    (hc : compactedOf results errors = c0 :: crest) (hne : crest ≠ []) :
    oneOf_final_check ctx data schemas results errors
        (compactedOf results errors)
      = (crest.foldl updAll c0,
         [("_schema",
           ["satisfied both of " ++
              pyListRepr ((schemas.zip errors).filterMap
                (fun p => if p.2 = ([] : Errors) then some p.1.name
                  else none))
              ++ ", not only one"])]) ∧
    (∀ k, alookup (crest.foldl updAll c0) k
        = ofirst (lookupIn crest k) (alookup c0 k)) := by
  rcases crest with _ | ⟨c1, cs⟩
  · exact absurd rfl hne
  · rw [hc]
    exact ⟨rfl, fun k => foldl_updAll_lookup (c1 :: cs) c0 k⟩

/-- Witness for C4 at two concrete successful candidates. -/
theorem C4_oneof_ambiguous_witness :
    oneOf_final_check ⟨[wX, wY], false⟩ wDataX [wX, wY] [wDa, wDb]
        [[], []] (compactedOf [wDa, wDb] [[], []])
      = (([wDb] : List Dict).foldl updAll wDa,
         [("_schema",
           ["satisfied both of " ++
              pyListRepr ((([wX, wY] : List SchemaHandle).zip
                  ([[], []] : List Errors)).filterMap
                (fun p => if p.2 = ([] : Errors) then some p.1.name
                  else none))
              ++ ", not only one"])]) :=
(C4_oneof_ambiguous ⟨[wX, wY], false⟩ wDataX [wX, wY] [wDa, wDb]
  [[], []] wDa [wDb] rfl (List.cons_ne_nil _ _)).1

/-- C5: when no candidate succeeds, oneOf `final_check` returns the first
per-candidate result updated in order by every other result (the original
payload unchanged when there are no results), with a single `_schema`
message `not matched, any of {candidates}` naming every declared variant,
plus `self` exactly when `include_self` is set. -/
theorem C5_oneof_no_match (ctx : OneOfCtx) (data : Dict)
    (schemas : List SchemaHandle) (results : List Dict)
    (errors : List Errors)
    (hall : ∀ e ∈ errors, e ≠ ([] : Errors)) :
    (results = [] →
      oneOf_final_check ctx data schemas results errors
          (compactedOf results errors)
        = (data,
           [("_schema",
             ["not matched, any of " ++
                pyListRepr (ctx.schemas.map (fun s => s.name) ++
                  (if ctx.include_self then ["self"] else []))])])) ∧
    (∀ r rest, results = r :: rest →
      oneOf_final_check ctx data schemas results errors
          (compactedOf results errors)
        = (rest.foldl updAll r,
           [("_schema",
             ["not matched, any of " ++
                pyListRepr (ctx.schemas.map (fun s => s.name) ++
                  (if ctx.include_self then ["self"] else []))])])) := by
  have hc := compactedOf_nil results errors hall
  constructor
  · intro hres
    rw [hc, hres]
    rfl
  · intro r rest hres
    rw [hc, hres]
    rfl

/-- Witness for C5 with one failing candidate and `include_self` set. -/
theorem C5_oneof_no_match_witness :
    oneOf_final_check ⟨[wX], true⟩ wDataX [wX] [wDa] [[("x", ["bad"])]]
        (compactedOf [wDa] [[("x", ["bad"])]])
      = (([] : List Dict).foldl updAll wDa,
         [("_schema",
           ["not matched, any of " ++
              pyListRepr ((OneOfCtx.mk [wX] true).schemas.map
                  (fun s => s.name) ++
                (if (OneOfCtx.mk [wX] true).include_self then ["self"]
                  else []))])]) :=
(C5_oneof_no_match ⟨[wX], true⟩ wDataX [wX] [wDa] [[("x", ["bad"])]]
  (by decide)).2 wDa [] rfl

/-- C6: when the base schema's own validation succeeded (`self_errors`
absent): an error-free aggregator result becomes the
`satisfied both of self and others` ambiguity error; an aggregator result
consisting exactly of `not matched` messages has its `_schema` key
cleared, making the overall result a success; any other aggregator errors
are left unchanged. -/
theorem C6_self_clean_rule (errors : Errors) :
    (errors = [] →
      merge_errors_one_for_include_self errors none
        = [("_schema",
            ["satisfied both of self and others, not only one"])]) ∧
    (∀ msgs : List String, errors = [("_schema", msgs)] →
      msgs.all startsNotMatched = true →
      merge_errors_one_for_include_self errors none = []) ∧
    (((alookup errors "_schema").getD []).all startsNotMatched = false →
      merge_errors_one_for_include_self errors none = errors) := by
  refine ⟨?_, ?_, ?_⟩
  · intro h
    rw [h]
    rfl
  · intro msgs h hall
    subst h
    show (if ([("_schema", msgs)] : Errors) = [] then
        [("_schema", ["satisfied both of self and others, not only one"])]
      else if msgs.all startsNotMatched then
        removeKey ([("_schema", msgs)] : Errors) "_schema"
      else [("_schema", msgs)]) = []
    rw [if_neg (List.cons_ne_nil _ _), if_pos hall]
    rfl
  · intro hfalse
    by_cases hnil : errors = []
    · exfalso
      rw [hnil] at hfalse
      exact Bool.noConfusion hfalse
    · have hne : ¬ ((alookup errors "_schema").getD []).all startsNotMatched
          = true := by
        rw [hfalse]
        exact Bool.false_ne_true
      show (if errors = [] then
          [("_schema", ["satisfied both of self and others, not only one"])]
        else if ((alookup errors "_schema").getD []).all startsNotMatched then
          removeKey errors "_schema"
        else errors) = errors
      rw [if_neg hnil, if_neg hne]

/-- Witness for C6: self succeeds while the aggregator only reports
`not matched`, so the merge clears the error and reports success. -/
theorem C6_self_clean_rule_witness :
    merge_errors_one_for_include_self cexNM none = [] :=
(C6_self_clean_rule cexNM).2.1
  ["not matched, any of " ++ pyListRepr ["A"]] rfl (by decide)

/-- C7: anyOf `final_check` returns, when at least one candidate
succeeded, the first successful value updated in order by each later
successful value (later keys winning) with no errors; with zero successes
it falls back exactly like oneOf's zero-match branch and reports
`not matched, any of {names}` over the declared variants (no `self`). -/
theorem C7_anyof_aggregation (selfSchemas : List SchemaHandle)
    (data : Dict) (schemas : List SchemaHandle) (results : List Dict)
    (errors : List Errors) :
    (∀ c0 crest, compactedOf results errors = c0 :: crest →
      anyOf_final_check selfSchemas data schemas results errors
          (compactedOf results errors)
        = (crest.foldl updAll c0, ([] : Errors)) ∧
      (∀ k, alookup (crest.foldl updAll c0) k
          = ofirst (lookupIn crest k) (alookup c0 k))) ∧
    ((∀ e ∈ errors, e ≠ ([] : Errors)) →
      (results = [] →
        anyOf_final_check selfSchemas data schemas results errors
            (compactedOf results errors)
          = (data,
             [("_schema",
               ["not matched, any of " ++
                  pyListRepr (selfSchemas.map (fun s => s.name))])])) ∧
      (∀ r rest, results = r :: rest →
        anyOf_final_check selfSchemas data schemas results errors
            (compactedOf results errors)
          = (rest.foldl updAll r,
             [("_schema",
               ["not matched, any of " ++
                  pyListRepr (selfSchemas.map (fun s => s.name))])]))) := by
  constructor
  · intro c0 crest hcomp
    rw [hcomp]
    exact ⟨rfl, fun k => foldl_updAll_lookup crest c0 k⟩
  · intro hall
    have hc := compactedOf_nil results errors hall
    constructor
    · intro hres
      rw [hc, hres]
      rfl
    · intro r rest hres
      rw [hc, hres]
      rfl

/-- Witness for C7 with one successful candidate. -/
theorem C7_anyof_aggregation_witness :
    anyOf_final_check [wX] wDataX [wX] [wDa] [[]]
        (compactedOf [wDa] [[]])
      = (([] : List Dict).foldl updAll wDa, ([] : Errors)) :=
((C7_anyof_aggregation [wX] wDataX [wX] [wDa] [[]]).1 wDa [] rfl).1

/-- C8: when exactly one candidate's error set is empty, oneOf
`final_check` returns that candidate's value unchanged with an empty
error mapping. -/
theorem C8_oneof_single (ctx : OneOfCtx) (data : Dict)
    (schemas : List SchemaHandle) (r1 r2 : List Dict)
    (e1 e2 : List Errors) (v : Dict)
    (h1 : r1.length = e1.length)
    (he1 : ∀ e ∈ e1, e ≠ ([] : Errors))
    (he2 : ∀ e ∈ e2, e ≠ ([] : Errors)) :
    oneOf_final_check ctx data schemas (r1 ++ v :: r2)
        (e1 ++ ([] : Errors) :: e2)
        (compactedOf (r1 ++ v :: r2) (e1 ++ ([] : Errors) :: e2))
      = (v, ([] : Errors)) := by
  rw [compactedOf_single r1 r2 e1 e2 v h1 he1 he2]
  rfl

/-- Witness for C8: the second of two candidates succeeds. -/
theorem C8_oneof_single_witness :
    oneOf_final_check ⟨[wX, wY], false⟩ wDataX [wX, wY] [wDa, wDb]
        [[("x", ["bad"])], []]
        (compactedOf [wDa, wDb] [[("x", ["bad"])], []])
      = (wDb, ([] : Errors)) :=
C8_oneof_single ⟨[wX, wY], false⟩ wDataX [wX, wY] [wDa] []
  [[("x", ["bad"])]] [] wDb rfl (by decide) (by decide)

/-- C10: with no discriminator, `find_schemas` returns the full declared
variant list for every payload, so the deserialization path
(`unmarshall_one`) attempts every variant's `load` regardless of the
payload's keys, while the serialization path (`marshall_one`) first
filters candidates structurally via `find_matched_schemas`
(= `spec_matched`). -/
theorem C10_split_paths (final : FinalCheck) (f : SchemaFinder)
    (data : Dict) (pflag : Bool) (h : f.discriminator = none) :
    find_schemas f data = Except.ok f.schemas ∧
    unmarshall_one final f data pflag
      = Except.ok (final data f.schemas
          ((f.schemas.map (fun s => s.load data pflag)).map (fun o => o.1))
          ((f.schemas.map (fun s => s.load data pflag)).map (fun o => o.2))
          (compactedOf
            ((f.schemas.map (fun s => s.load data pflag)).map
              (fun o => o.1))
            ((f.schemas.map (fun s => s.load data pflag)).map
              (fun o => o.2)))) ∧
    marshall_one final f data
      = Except.ok (final data (spec_matched f.schemas data)
          (((spec_matched f.schemas data).map (fun s => s.dump data)).map
            (fun o => o.1))
          (((spec_matched f.schemas data).map (fun s => s.dump data)).map
            (fun o => o.2))
          (compactedOf
            (((spec_matched f.schemas data).map (fun s => s.dump data)).map
              (fun o => o.1))
            (((spec_matched f.schemas data).map (fun s => s.dump data)).map
              (fun o => o.2)))) := by
  refine ⟨?_, ?_, ?_⟩
  · simp only [find_schemas, h]
  · simp only [unmarshall_one, find_schemas, h]
  · simp only [marshall_one, find_matched_eq_spec f data h]

/-- Witness for C10 at a concrete finder and payload. -/
theorem C10_split_paths_witness :
    find_schemas wF wDataX = Except.ok wF.schemas :=
(C10_split_paths (oneOf_final_check ⟨[wX, wY], false⟩) wF wDataX true
  rfl).1

end Composed
